import Mathlib

/-!
Verification of the rqlite-go-http request/response protocol layer.

The Go source is shallowly embedded: JSON documents are an inductive AST
(numbers kept as exact decimal literals), Go values produced by
`encoding/json` decoding into `any` are a second inductive whose numeric
case records the IEEE-754 binary64 value the Go runtime would store,
and each function under test (`SQLStatement.MarshalJSON`,
`SQLStatement.UnmarshalJSON`, `QueryResponse.UnmarshalJSON`, `HasError`,
the `Client.Execute`/`Query`/`Request`/`Backup`/`Load` response handling,
`MakeURLValues`, and the `RandomBalancer` state transitions) is translated
into an executable Lean definition.
-/

/-- A JSON document.  Numbers are kept in exact decimal-literal form
`mant × 10 ^ exp10`, so that no precision is lost before a decoder chooses
a machine representation.  Object members are kept in document order. -/
inductive JSONValue where
  | null : JSONValue
  | bool (b : Bool) : JSONValue
  | num (mant : Int) (exp10 : Int) : JSONValue
  | str (s : String) : JSONValue
  | arr (elems : List JSONValue) : JSONValue
  | obj (members : List (String × JSONValue)) : JSONValue

/-- An unreduced fraction `fnum / fden` with `fden > 0` maintained by
construction.  Used instead of `ℚ` inside executable definitions because
every operation below is plain machine-integer arithmetic, which the
kernel evaluates directly. -/
structure Frac where
  fnum : Int
  fden : Int

/-- The rational value of a fraction. -/
def Frac.toRat (q : Frac) : ℚ := (q.fnum : ℚ) / (q.fden : ℚ)

/-- Fraction comparison by cross-multiplication (both denominators
positive). -/
def fracLt (a b : Frac) : Bool := a.fnum * b.fden < b.fnum * a.fden

/-- Fraction product. -/
def Frac.mul (a b : Frac) : Frac := ⟨a.fnum * b.fnum, a.fden * b.fden⟩

/-- `2 ^ e` as a fraction, for an integer exponent. -/
def pow2Frac : Int → Frac
  | .ofNat n => ⟨((2 ^ n : Nat) : Int), 1⟩
  | .negSucc n => ⟨1, ((2 ^ (n + 1) : Nat) : Int)⟩

/-- `10 ^ e` as a fraction, for an integer exponent. -/
def pow10Frac : Int → Frac
  | .ofNat n => ⟨((10 ^ n : Nat) : Int), 1⟩
  | .negSucc n => ⟨1, ((10 ^ (n + 1) : Nat) : Int)⟩

/-- The exact value of a JSON number literal `mant × 10 ^ exp10` as a
fraction. -/
def jsonNumFrac (mant : Int) (exp10 : Int) : Frac :=
  Frac.mul ⟨mant, 1⟩ (pow10Frac exp10)

/-- Round a fraction to the nearest integer, ties to even — the rounding
mode IEEE 754 prescribes and `strconv.ParseFloat` implements. -/
def roundHalfEvenF (q : Frac) : Int :=
  let n := Int.fdiv q.fnum q.fden
  let r := q.fnum - n * q.fden
  if 2 * r < q.fden then n
  else if q.fden < 2 * r then n + 1
  else if n % 2 = 0 then n else n + 1

/-- Fuel-driven search upward for the binary exponent: starting from `e`
with invariant `2 ^ e ≤ q`, find `e'` with `q < 2 ^ (e' + 1)`. -/
def findExpUp : Nat → Int → Frac → Int
  | 0, e, _ => e
  | fuel + 1, e, q =>
      if fracLt q (pow2Frac (e + 1)) then e else findExpUp fuel (e + 1) q

/-- Fuel-driven search downward for the binary exponent: starting from `e`
with invariant `q < 2 ^ (e + 1)`, find `e'` with `2 ^ e' ≤ q`. -/
def findExpDown : Nat → Int → Frac → Int
  | 0, e, _ => e
  | fuel + 1, e, q =>
      if ¬fracLt q (pow2Frac e) then e else findExpDown fuel (e - 1) q

/-- Binary exponent of a positive fraction: the `e` with
`2 ^ e ≤ q < 2 ^ (e + 1)`.  The fuel arguments are large enough for the
searches to settle (proved below). -/
def binExpF (q : Frac) : Int :=
  if fracLt q ⟨1, 1⟩ then findExpDown q.fden.natAbs 0 q
  else findExpUp q.fnum.natAbs 0 q

/-- An IEEE-754 binary64 value, as the exact rational
`sig × 2 ^ exp` it denotes.  `⟨0, 0⟩` is zero.  Overflow to infinity and
subnormal underflow are outside the range exercised by this development
and are not modelled. -/
structure Float64 where
  sig : Int
  exp : Int

/-- The exact rational value a `Float64` denotes. -/
def Float64.toRat (f : Float64) : ℚ := (f.sig : ℚ) * (2 : ℚ) ^ f.exp

/-- Binary64 rounding of a positive fraction: the 53-bit significand is
obtained by round-to-nearest, ties-to-even. -/
def toFloat64Pos (q : Frac) : Float64 :=
  let e := binExpF q
  ⟨roundHalfEvenF (q.mul (pow2Frac (52 - e))), e - 52⟩

/-- The binary64 value Go stores when `encoding/json` decodes a number
into a `float64` (or into `any`). -/
def toFloat64 (q : Frac) : Float64 :=
  if q.fnum = 0 then ⟨0, 0⟩
  else if 0 < q.fnum then toFloat64Pos q
  else
    let p := toFloat64Pos ⟨-q.fnum, q.fden⟩
    ⟨-p.sig, p.exp⟩

/-- The `float64` a JSON number literal decodes to. -/
def jsonNumFloat (mant : Int) (exp10 : Int) : Float64 :=
  toFloat64 (jsonNumFrac mant exp10)

/-! ## Go values: the result of `encoding/json` decoding into `any`

Go stores JSON numbers as `float64`, arrays as `[]any` and objects as
`map[string]any`.  Since Go maps are unordered with unique keys, decoded
objects are canonicalised: later duplicate keys win, then entries are
sorted by key. -/

inductive GoValue where
  | null : GoValue
  | bool (b : Bool) : GoValue
  | float (f : Float64) : GoValue
  | str (s : String) : GoValue
  | arr (elems : List GoValue) : GoValue
  | obj (members : List (String × GoValue)) : GoValue

/-- Remove from an association list every binding whose key occurs again
later, keeping the last binding of each key — Go's sequential map fill. -/
def dedupKeepLast {α : Type} : List (String × α) → List (String × α)
  | [] => []
  | (k, v) :: rest =>
      if (rest.map Prod.fst).contains k then dedupKeepLast rest
      else (k, v) :: dedupKeepLast rest

/-- Insert into a key-sorted association list. -/
def insertByKey {α : Type} (k : String) (v : α) :
    List (String × α) → List (String × α)
  | [] => [(k, v)]
  | (k', v') :: rest =>
      if k < k' then (k, v) :: (k', v') :: rest
      else (k', v') :: insertByKey k v rest

/-- Sort an association list by key (insertion sort). -/
def sortByKey {α : Type} : List (String × α) → List (String × α)
  | [] => []
  | (k, v) :: rest => insertByKey k v (sortByKey rest)

/-- Canonical form of a Go map built from JSON object members in document
order: last duplicate wins, entries sorted by key. -/
def canonMap {α : Type} (ms : List (String × α)) : List (String × α) :=
  sortByKey (dedupKeepLast ms)

mutual

/-- `encoding/json` decoding of a JSON value into Go's `any`:
null → nil, booleans → bool, numbers → float64, strings → string,
arrays → `[]any`, objects → `map[string]any`. -/
def decodeAny : JSONValue → GoValue
  | .null => .null
  | .bool b => .bool b
  | .num m e => .float (jsonNumFloat m e)
  | .str s => .str s
  | .arr xs => .arr (decodeAnyList xs)
  | .obj ms => .obj (canonMap (decodeAnyMembers ms))

/-- Elementwise `decodeAny` over a JSON array. -/
def decodeAnyList : List JSONValue → List GoValue
  | [] => []
  | x :: xs => decodeAny x :: decodeAnyList xs

/-- Valuewise `decodeAny` over JSON object members. -/
def decodeAnyMembers : List (String × JSONValue) → List (String × GoValue)
  | [] => []
  | (k, v) :: ms => (k, decodeAny v) :: decodeAnyMembers ms

end

/-! ## Statement codec (`statements.go`) -/

/-- `SQLStatement`: SQL text plus positional or named parameters.  The Go
`[]any` / `map[string]any` parameter values are represented by the JSON
values they marshal to; the named-parameter map is an association list in
insertion order (Go's `json.Marshal` sorts map keys, applied at encode
time). -/
structure SQLStatement where
  SQL : String
  PositionalParams : List JSONValue
  NamedParams : List (String × JSONValue)

/-- `SQLStatement.MarshalJSON`: named parameters (checked first) produce
`[sql, {params}]`; positional parameters produce `[sql, p1, …]`; no
parameters produce the bare SQL string.  `json.Marshal` sorts the map
keys, hence `canonMap`. -/
def SQLStatement.marshalJSON (s : SQLStatement) : JSONValue :=
  if s.NamedParams.length > 0 then
    .arr [.str s.SQL, .obj (canonMap s.NamedParams)]
  else if s.PositionalParams.length > 0 then
    .arr (.str s.SQL :: s.PositionalParams)
  else
    .str s.SQL

/-- The name `encoding/json` gives a JSON kind inside type-mismatch
error messages. -/
def jsonKindName : JSONValue → String
  | .null => "null"
  | .bool _ => "bool"
  | .num _ _ => "number"
  | .str _ => "string"
  | .arr _ => "array"
  | .obj _ => "object"

/-- `SQLStatement.UnmarshalJSON` (statements.go lines 87–96): the data is
unmarshalled into a Go `string`; any non-string JSON value makes
`json.Unmarshal` fail and the error is returned unchanged. -/
def SQLStatement.unmarshalJSON (data : JSONValue) :
    Except String SQLStatement :=
  match data with
  | .str sql => .ok { SQL := sql, PositionalParams := [], NamedParams := [] }
  | v =>
      .error ("json: cannot unmarshal " ++ jsonKindName v ++
        " into Go value of type string")

/-- `SQLStatements.MarshalJSON`: the array of per-statement encodings. -/
def SQLStatements.marshalJSON (sts : List SQLStatement) : JSONValue :=
  .arr (sts.map SQLStatement.marshalJSON)

/-! ## Response decoding (`part_010` of the source)

Go struct decoding is modelled field-for-field: members of a JSON object
are processed in document order, unknown keys are ignored, a JSON `null`
leaves a scalar field unchanged and sets a slice/map/pointer field to
nil, and a type mismatch fails the whole decode.  Decode failures are
`none`; the Go error text is not modelled except where the source builds
the message itself. -/

/-- Zero float64. -/
def float64zero : Float64 := ⟨0, 0⟩

/-- Assign a JSON value to a Go `string` field. -/
def decodeStrField : JSONValue → String → Option String
  | .null, cur => some cur
  | .str s, _ => some s
  | _, _ => none

/-- Assign a JSON value to a Go `float64` field. -/
def decodeFloatField : JSONValue → Float64 → Option Float64
  | .null, cur => some cur
  | .num m e, _ => some (jsonNumFloat m e)
  | _, _ => none

/-- Assign a JSON value to a Go `int64` field.  `encoding/json` parses
the literal with `strconv.ParseInt`, so only integer literals (written
here with `exp10 = 0`) succeed. -/
def decodeIntField : JSONValue → Int → Option Int
  | .null, cur => some cur
  | .num m 0, _ => some m
  | _, _ => none

/-- Assign a JSON value to a Go `*int64` field: `null` makes the pointer
nil, a number allocates. -/
def decodeIntPtrField : JSONValue → Option Int → Option (Option Int)
  | .null, _ => some none
  | .num m 0, _ => some (some m)
  | _, _ => none

/-- Decode one element of a `[]string`. -/
def decodeStrElem : JSONValue → Option String
  | .null => some ""
  | .str s => some s
  | _ => none

/-- Decode the elements of a `[]string`. -/
def decodeStrElems : List JSONValue → Option (List String)
  | [] => some []
  | x :: xs => (decodeStrElem x).bind fun s =>
      (decodeStrElems xs).map fun rest => s :: rest

/-- Assign a JSON value to a Go `[]string` field. -/
def decodeStrListField : JSONValue → List String → Option (List String)
  | .null, _ => some []
  | .arr xs, _ => decodeStrElems xs
  | _, _ => none

/-- Decode one row of a `[][]any` field. -/
def decodeRow : JSONValue → Option (List GoValue)
  | .null => some []
  | .arr xs => some (decodeAnyList xs)
  | _ => none

/-- Decode the rows of a `[][]any` field. -/
def decodeRows : List JSONValue → Option (List (List GoValue))
  | [] => some []
  | x :: xs => (decodeRow x).bind fun r =>
      (decodeRows xs).map fun rest => r :: rest

/-- Assign a JSON value to a Go `[][]any` field. -/
def decodeRowsField : JSONValue → List (List GoValue) →
    Option (List (List GoValue))
  | .null, _ => some []
  | .arr xs, _ => decodeRows xs
  | _, _ => none

/-- Decode the values of a `map[string]string`. -/
def decodeStrMapVals : List (String × JSONValue) →
    Option (List (String × String))
  | [] => some []
  | (k, v) :: ms => (decodeStrElem v).bind fun s =>
      (decodeStrMapVals ms).map fun rest => (k, s) :: rest

/-- Assign a JSON value to a Go `map[string]string` field. -/
def decodeStrMapField : JSONValue → List (String × String) →
    Option (List (String × String))
  | .null, _ => some []
  | .obj ms, _ => (decodeStrMapVals ms).map canonMap
  | _, _ => none

/-- Decode one element of a `[]map[string]any`. -/
def decodeAssocRow : JSONValue → Option (List (String × GoValue))
  | .null => some []
  | .obj ms => some (canonMap (decodeAnyMembers ms))
  | _ => none

/-- Decode the elements of a `[]map[string]any`. -/
def decodeAssocRows : List JSONValue → Option (List (List (String × GoValue)))
  | [] => some []
  | x :: xs => (decodeAssocRow x).bind fun r =>
      (decodeAssocRows xs).map fun rest => r :: rest

/-- Assign a JSON value to a Go `[]map[string]any` field. -/
def decodeAssocRowsField : JSONValue → List (List (String × GoValue)) →
    Option (List (List (String × GoValue)))
  | .null, _ => some []
  | .arr xs, _ => decodeAssocRows xs
  | _, _ => none

/-- `QueryResult`: one element of the columnar `results` array. -/
structure QueryResult where
  Columns : List String
  Types : List String
  Values : List (List GoValue)
  Time : Float64
  Error : String

/-- The zero `QueryResult`. -/
def queryResultZero : QueryResult := ⟨[], [], [], float64zero, ""⟩

/-- Process one JSON member into a `QueryResult` under decode. -/
def applyQueryResultMember (acc : QueryResult) :
    String × JSONValue → Option QueryResult
  | ("columns", v) =>
      (decodeStrListField v acc.Columns).map fun x => { acc with Columns := x }
  | ("types", v) =>
      (decodeStrListField v acc.Types).map fun x => { acc with Types := x }
  | ("values", v) =>
      (decodeRowsField v acc.Values).map fun x => { acc with Values := x }
  | ("time", v) =>
      (decodeFloatField v acc.Time).map fun x => { acc with Time := x }
  | ("error", v) =>
      (decodeStrField v acc.Error).map fun x => { acc with Error := x }
  | _ => some acc

/-- Fold all members of a JSON object into a `QueryResult`. -/
def decodeQueryResultObj : List (String × JSONValue) → QueryResult →
    Option QueryResult
  | [], acc => some acc
  | m :: ms, acc => (applyQueryResultMember acc m).bind (decodeQueryResultObj ms)

/-- Decode one element of a `[]QueryResult`. -/
def decodeQueryResult : JSONValue → Option QueryResult
  | .null => some queryResultZero
  | .obj ms => decodeQueryResultObj ms queryResultZero
  | _ => none

/-- Decode the elements of a `[]QueryResult`. -/
def decodeQueryResults : List JSONValue → Option (List QueryResult)
  | [] => some []
  | x :: xs => (decodeQueryResult x).bind fun r =>
      (decodeQueryResults xs).map fun rest => r :: rest

/-- `json.Unmarshal` of raw `results` JSON into `[]QueryResult`. -/
def decodeQueryResultList : JSONValue → Option (List QueryResult)
  | .null => some []
  | .arr xs => decodeQueryResults xs
  | _ => none

/-- `QueryResultAssoc`: one element of the associative `results` array. -/
structure QueryResultAssoc where
  Types : List (String × String)
  Rows : List (List (String × GoValue))
  Time : Float64
  Error : String

/-- The zero `QueryResultAssoc`. -/
def queryResultAssocZero : QueryResultAssoc := ⟨[], [], float64zero, ""⟩

/-- Process one JSON member into a `QueryResultAssoc` under decode. -/
def applyQueryResultAssocMember (acc : QueryResultAssoc) :
    String × JSONValue → Option QueryResultAssoc
  | ("types", v) =>
      (decodeStrMapField v acc.Types).map fun x => { acc with Types := x }
  | ("rows", v) =>
      (decodeAssocRowsField v acc.Rows).map fun x => { acc with Rows := x }
  | ("time", v) =>
      (decodeFloatField v acc.Time).map fun x => { acc with Time := x }
  | ("error", v) =>
      (decodeStrField v acc.Error).map fun x => { acc with Error := x }
  | _ => some acc

/-- Fold all members of a JSON object into a `QueryResultAssoc`. -/
def decodeQueryResultAssocObj : List (String × JSONValue) → QueryResultAssoc →
    Option QueryResultAssoc
  | [], acc => some acc
  | m :: ms, acc =>
      (applyQueryResultAssocMember acc m).bind (decodeQueryResultAssocObj ms)

/-- Decode one element of a `[]QueryResultAssoc`. -/
def decodeQueryResultAssoc : JSONValue → Option QueryResultAssoc
  | .null => some queryResultAssocZero
  | .obj ms => decodeQueryResultAssocObj ms queryResultAssocZero
  | _ => none

/-- Decode the elements of a `[]QueryResultAssoc`. -/
def decodeQueryResultAssocs : List JSONValue → Option (List QueryResultAssoc)
  | [] => some []
  | x :: xs => (decodeQueryResultAssoc x).bind fun r =>
      (decodeQueryResultAssocs xs).map fun rest => r :: rest

/-- `json.Unmarshal` of raw `results` JSON into `[]QueryResultAssoc`. -/
def decodeQueryResultAssocList : JSONValue → Option (List QueryResultAssoc)
  | .null => some []
  | .arr xs => decodeQueryResultAssocs xs
  | _ => none

/-- `ExecuteResult`: one element of `ExecuteResponse.Results`. -/
structure ExecuteResult where
  LastInsertID : Int
  RowsAffected : Int
  Time : Float64
  Error : String

/-- The zero `ExecuteResult`. -/
def executeResultZero : ExecuteResult := ⟨0, 0, float64zero, ""⟩

/-- Process one JSON member into an `ExecuteResult` under decode. -/
def applyExecuteResultMember (acc : ExecuteResult) :
    String × JSONValue → Option ExecuteResult
  | ("last_insert_id", v) =>
      (decodeIntField v acc.LastInsertID).map fun x =>
        { acc with LastInsertID := x }
  | ("rows_affected", v) =>
      (decodeIntField v acc.RowsAffected).map fun x =>
        { acc with RowsAffected := x }
  | ("time", v) =>
      (decodeFloatField v acc.Time).map fun x => { acc with Time := x }
  | ("error", v) =>
      (decodeStrField v acc.Error).map fun x => { acc with Error := x }
  | _ => some acc

/-- Fold all members of a JSON object into an `ExecuteResult`. -/
def decodeExecuteResultObj : List (String × JSONValue) → ExecuteResult →
    Option ExecuteResult
  | [], acc => some acc
  | m :: ms, acc =>
      (applyExecuteResultMember acc m).bind (decodeExecuteResultObj ms)

/-- Decode one element of a `[]ExecuteResult`. -/
def decodeExecuteResult : JSONValue → Option ExecuteResult
  | .null => some executeResultZero
  | .obj ms => decodeExecuteResultObj ms executeResultZero
  | _ => none

/-- Decode the elements of a `[]ExecuteResult`. -/
def decodeExecuteResults : List JSONValue → Option (List ExecuteResult)
  | [] => some []
  | x :: xs => (decodeExecuteResult x).bind fun r =>
      (decodeExecuteResults xs).map fun rest => r :: rest

/-- Assign a JSON value to a Go `[]ExecuteResult` field. -/
def decodeExecuteResultsField : JSONValue → List ExecuteResult →
    Option (List ExecuteResult)
  | .null, _ => some []
  | .arr xs, _ => decodeExecuteResults xs
  | _, _ => none

/-- `ExecuteResponse`: the JSON returned by `/db/execute`. -/
structure ExecuteResponse where
  Results : List ExecuteResult
  Time : Float64
  SequenceNumber : Int

/-- The zero `ExecuteResponse`. -/
def executeResponseZero : ExecuteResponse := ⟨[], float64zero, 0⟩

/-- Process one JSON member into an `ExecuteResponse` under decode. -/
def applyExecuteResponseMember (acc : ExecuteResponse) :
    String × JSONValue → Option ExecuteResponse
  | ("results", v) =>
      (decodeExecuteResultsField v acc.Results).map fun x =>
        { acc with Results := x }
  | ("time", v) =>
      (decodeFloatField v acc.Time).map fun x => { acc with Time := x }
  | ("sequence_number", v) =>
      (decodeIntField v acc.SequenceNumber).map fun x =>
        { acc with SequenceNumber := x }
  | _ => some acc

/-- Fold all members of a JSON object into an `ExecuteResponse`. -/
def decodeExecuteResponseObj : List (String × JSONValue) → ExecuteResponse →
    Option ExecuteResponse
  | [], acc => some acc
  | m :: ms, acc =>
      (applyExecuteResponseMember acc m).bind (decodeExecuteResponseObj ms)

/-- `json.Unmarshal(respBody, &executeResp)`: `ExecuteResponse` has no
custom unmarshaller, so this is plain struct decoding. -/
def unmarshalExecuteResponse : JSONValue → Option ExecuteResponse
  | .null => some executeResponseZero
  | .obj ms => decodeExecuteResponseObj ms executeResponseZero
  | _ => none

/-- `ExecuteResponse.HasError` walks `Results` in order and returns the
index and message of the first result whose `Error` is set. -/
def executeHasErrorFrom : Int → List ExecuteResult → Bool × Int × String
  | _, [] => (false, -1, "")
  | i, r :: rs =>
      if r.Error ≠ "" then (true, i, r.Error) else executeHasErrorFrom (i + 1) rs

/-- `ExecuteResponse.HasError`. -/
def ExecuteResponse.hasError (er : ExecuteResponse) : Bool × Int × String :=
  executeHasErrorFrom 0 er.Results

/-- The two shapes `QueryResponse.Results` (a Go `any`) can hold after a
successful `UnmarshalJSON`. -/
inductive QueryResults where
  | columnar (rs : List QueryResult) : QueryResults
  | assoc (rs : List QueryResultAssoc) : QueryResults

/-- `QueryResponse`: the JSON returned by `/db/query`. -/
structure QueryResponse where
  Results : QueryResults
  Time : Float64

/-- The auxiliary struct of `QueryResponse.UnmarshalJSON`: `results` is
captured as raw JSON, `time` decodes through the alias. -/
structure QueryRespAux where
  resultsRaw : Option JSONValue
  time : Float64

/-- Process one JSON member into the auxiliary struct. -/
def applyQueryRespAuxMember (acc : QueryRespAux) :
    String × JSONValue → Option QueryRespAux
  | ("results", v) => some { acc with resultsRaw := some v }
  | ("time", v) =>
      (decodeFloatField v acc.time).map fun x => { acc with time := x }
  | _ => some acc

/-- Fold all members of the envelope into the auxiliary struct. -/
def decodeQueryRespAuxObj : List (String × JSONValue) → QueryRespAux →
    Option QueryRespAux
  | [], acc => some acc
  | m :: ms, acc =>
      (applyQueryRespAuxMember acc m).bind (decodeQueryRespAuxObj ms)

/-- The shape-mismatch message built by `QueryResponse.UnmarshalJSON`. -/
def queryShapeErrMsg : String :=
  "unable to unmarshal results into either []QueryResult or []QueryResultAssoc"

/-- First stage of `QueryResponse.UnmarshalJSON`: decode the envelope
into the auxiliary struct, capturing `results` as raw JSON. -/
def decodeQueryRespAux : JSONValue → Option QueryRespAux
  | .null => some ⟨none, float64zero⟩
  | .obj ms => decodeQueryRespAuxObj ms ⟨none, float64zero⟩
  | _ => none

/-- `QueryResponse.UnmarshalJSON`: decode the envelope capturing
`results` as raw JSON, then attempt `[]QueryResult`, then
`[]QueryResultAssoc`, and fail with the shape-mismatch error if both
attempts fail (a missing `results` member makes both attempts fail). -/
def unmarshalQueryResponse (env : JSONValue) : Except String QueryResponse :=
  match decodeQueryRespAux env with
  | none => .error "json: cannot unmarshal envelope into Go value of type QueryResponse"
  | some aux =>
      match aux.resultsRaw with
      | some raw =>
          match decodeQueryResultList raw with
          | some res => .ok ⟨.columnar res, aux.time⟩
          | none =>
              match decodeQueryResultAssocList raw with
              | some res => .ok ⟨.assoc res, aux.time⟩
              | none => .error queryShapeErrMsg
      | none => .error queryShapeErrMsg

/-- Walk a `[]QueryResult` for the first set `Error`. -/
def queryHasErrorFrom : Int → List QueryResult → Bool × Int × String
  | _, [] => (false, -1, "")
  | i, r :: rs =>
      if r.Error ≠ "" then (true, i, r.Error) else queryHasErrorFrom (i + 1) rs

/-- Walk a `[]QueryResultAssoc` for the first set `Error`. -/
def queryAssocHasErrorFrom : Int → List QueryResultAssoc → Bool × Int × String
  | _, [] => (false, -1, "")
  | i, r :: rs =>
      if r.Error ≠ "" then (true, i, r.Error)
      else queryAssocHasErrorFrom (i + 1) rs

/-- `QueryResponse.HasError`: a type switch on the two result shapes,
each walked in order for the first set `Error`. -/
def QueryResponse.hasError (qr : QueryResponse) : Bool × Int × String :=
  match qr.Results with
  | .columnar rs => queryHasErrorFrom 0 rs
  | .assoc rs => queryAssocHasErrorFrom 0 rs

/-- `RequestResult`: one element of `RequestResponse.Results`, mixing
query-shaped and execute-shaped fields; the id/count fields are
pointers. -/
structure RequestResult where
  Columns : List String
  Types : List String
  Values : List (List GoValue)
  LastInsertID : Option Int
  RowsAffected : Option Int
  Error : String
  Time : Float64

/-- The zero `RequestResult`. -/
def requestResultZero : RequestResult := ⟨[], [], [], none, none, "", float64zero⟩

/-- Process one JSON member into a `RequestResult` under decode. -/
def applyRequestResultMember (acc : RequestResult) :
    String × JSONValue → Option RequestResult
  | ("columns", v) =>
      (decodeStrListField v acc.Columns).map fun x => { acc with Columns := x }
  | ("types", v) =>
      (decodeStrListField v acc.Types).map fun x => { acc with Types := x }
  | ("values", v) =>
      (decodeRowsField v acc.Values).map fun x => { acc with Values := x }
  | ("last_insert_id", v) =>
      (decodeIntPtrField v acc.LastInsertID).map fun x =>
        { acc with LastInsertID := x }
  | ("rows_affected", v) =>
      (decodeIntPtrField v acc.RowsAffected).map fun x =>
        { acc with RowsAffected := x }
  | ("error", v) =>
      (decodeStrField v acc.Error).map fun x => { acc with Error := x }
  | ("time", v) =>
      (decodeFloatField v acc.Time).map fun x => { acc with Time := x }
  | _ => some acc

/-- Fold all members of a JSON object into a `RequestResult`. -/
def decodeRequestResultObj : List (String × JSONValue) → RequestResult →
    Option RequestResult
  | [], acc => some acc
  | m :: ms, acc =>
      (applyRequestResultMember acc m).bind (decodeRequestResultObj ms)

/-- Decode one element of a `[]RequestResult`. -/
def decodeRequestResult : JSONValue → Option RequestResult
  | .null => some requestResultZero
  | .obj ms => decodeRequestResultObj ms requestResultZero
  | _ => none

/-- Decode the elements of a `[]RequestResult`. -/
def decodeRequestResults : List JSONValue → Option (List RequestResult)
  | [] => some []
  | x :: xs => (decodeRequestResult x).bind fun r =>
      (decodeRequestResults xs).map fun rest => r :: rest

/-- Assign a JSON value to a Go `[]RequestResult` field. -/
def decodeRequestResultsField : JSONValue → List RequestResult →
    Option (List RequestResult)
  | .null, _ => some []
  | .arr xs, _ => decodeRequestResults xs
  | _, _ => none

/-- `RequestResponse`: the JSON returned by `/db/request`. -/
structure RequestResponse where
  Results : List RequestResult
  Time : Float64

/-- The zero `RequestResponse`. -/
def requestResponseZero : RequestResponse := ⟨[], float64zero⟩

/-- Process one JSON member into a `RequestResponse` under decode. -/
def applyRequestResponseMember (acc : RequestResponse) :
    String × JSONValue → Option RequestResponse
  | ("results", v) =>
      (decodeRequestResultsField v acc.Results).map fun x =>
        { acc with Results := x }
  | ("time", v) =>
      (decodeFloatField v acc.Time).map fun x => { acc with Time := x }
  | _ => some acc

/-- Fold all members of a JSON object into a `RequestResponse`. -/
def decodeRequestResponseObj : List (String × JSONValue) → RequestResponse →
    Option RequestResponse
  | [], acc => some acc
  | m :: ms, acc =>
      (applyRequestResponseMember acc m).bind (decodeRequestResponseObj ms)

/-- `json.Unmarshal(respBody, &reqResp)`: plain struct decoding. -/
def unmarshalRequestResponse : JSONValue → Option RequestResponse
  | .null => some requestResponseZero
  | .obj ms => decodeRequestResponseObj ms requestResponseZero
  | _ => none

/-- Walk a `[]RequestResult` for the first set `Error`. -/
def requestHasErrorFrom : Int → List RequestResult → Bool × Int × String
  | _, [] => (false, -1, "")
  | i, r :: rs =>
      if r.Error ≠ "" then (true, i, r.Error)
      else requestHasErrorFrom (i + 1) rs

/-- `RequestResponse.HasError`. -/
def RequestResponse.hasError (rr : RequestResponse) : Bool × Int × String :=
  requestHasErrorFrom 0 rr.Results

/-! ## Client response handling (`part_010` of the source)

Each `Client` method is modelled from the point the HTTP response has
arrived: the status code and the (parsed) body are the inputs, and the
outcome mirrors the Go return values — an optional response plus an
optional error (`Execute` with promotion enabled returns both). -/

/-- The errors the client constructs or passes through. -/
inductive GoError where
  | unexpectedStatus (code : Nat) (body : JSONValue) : GoError
  | unexpectedStatusCode (code : Nat) : GoError
  | decodeError (msg : String) : GoError
  | statementError (idx : Int) (msg : String) : GoError

/-- `Client.Execute` from the point the response arrived: non-200 status
is an error carrying status and body; otherwise decode; with promotion
enabled a statement-level error is also returned as a call error (the
decoded response is returned alongside it). -/
def executeHandleResponse (promote : Bool) (status : Nat) (body : JSONValue) :
    Option ExecuteResponse × Option GoError :=
  if status ≠ 200 then (none, some (.unexpectedStatus status body))
  else
    match unmarshalExecuteResponse body with
    | none => (none, some (.decodeError "json: unmarshal ExecuteResponse"))
    | some resp =>
        if promote then
          match resp.hasError with
          | (true, i, msg) => (some resp, some (.statementError i msg))
          | _ => (some resp, none)
        else (some resp, none)

/-- `Client.Query` from the point the response arrived. -/
def queryHandleResponse (promote : Bool) (status : Nat) (body : JSONValue) :
    Option QueryResponse × Option GoError :=
  if status ≠ 200 then (none, some (.unexpectedStatus status body))
  else
    match unmarshalQueryResponse body with
    | .error msg => (none, some (.decodeError msg))
    | .ok resp =>
        if promote then
          match resp.hasError with
          | (true, i, msg) => (some resp, some (.statementError i msg))
          | _ => (some resp, none)
        else (some resp, none)

/-- `Client.Request` from the point the response arrived. -/
def requestHandleResponse (promote : Bool) (status : Nat) (body : JSONValue) :
    Option RequestResponse × Option GoError :=
  if status ≠ 200 then (none, some (.unexpectedStatus status body))
  else
    match unmarshalRequestResponse body with
    | none => (none, some (.decodeError "json: unmarshal RequestResponse"))
    | some resp =>
        if promote then
          match resp.hasError with
          | (true, i, msg) => (some resp, some (.statementError i msg))
          | _ => (some resp, none)
        else (some resp, none)

/-- `Client.Backup` from the point the response arrived: non-200 is an
error carrying only the status code; 200 hands the body stream to the
caller unexamined. -/
def backupHandleResponse (status : Nat) (body : List Char) :
    Except GoError (List Char) :=
  if status ≠ 200 then .error (.unexpectedStatusCode status)
  else .ok body

/-- `Client.Status` / `Client.Expvar` / `Client.Nodes` from the point the
response arrived: the body is read and returned as raw JSON with no
status check at all. -/
def statusHandleResponse (status : Nat) (body : List Char) : Except GoError (List Char) :=
  .ok body

/-- `Client.Ready` from the point the response arrived: the body stream
is returned with no status check. -/
def readyHandleResponse (status : Nat) (body : List Char) : Except GoError (List Char) :=
  .ok body

/-- `validSQLiteData`: true when the data is longer than 13 bytes and its
first 13 bytes spell the SQLite file signature prefix. -/
def validSQLiteData (b : List Char) : Bool :=
  b.length > 13 && decide (b.take 13 = "SQLite format".toList)

/-- `Client.Load`: read the first 13 bytes of the stream (the short-read
and empty-stream corner of `io.Reader.Read` is modelled for streams of
at least one byte: missing bytes of the 13-byte buffer stay zero), choose
the content type by sniffing them, and send the buffer followed by the
rest of the stream.  Returns the content type used and the bytes sent,
or `none` when the stream is empty (the read error is returned). -/
def loadSend (stream : List Char) : Option (String × List Char) :=
  if stream.isEmpty then none
  else
    let first13 := stream.take 13 ++
      List.replicate (13 - stream.length) (Char.ofNat 0)
    let contentType :=
      if validSQLiteData first13 then "application/octet-stream"
      else "text/plain"
    some (contentType, first13 ++ stream.drop 13)

/-! ## Options encoder (`part_000` of the source: `MakeURLValues`)

A Go options struct is modelled as its reflected field list: per field the
`uvalue` tag string (empty when untagged), whether the field is exported
(`CanInterface`), and the field's value at one of the kinds the source
switches on.  Unsupported kinds (e.g. `float64`) take `unsupported`. -/

/-- Digit character for `0 ≤ d ≤ 9`. -/
def digitChar (d : Nat) : Char := Char.ofNat (48 + d)

/-- `fmtFrac` of Go's `time.Duration.String`: format the `prec` low
decimal digits of `u` as a fraction, omitting trailing zeros (and the
decimal point when every digit is zero); returns the fraction text and
`u` shifted right by `prec` digits. -/
def fmtFrac : Nat → Nat → Bool → String → String × Nat
  | 0, u, print, acc => (if print then "." ++ acc else "", u)
  | p + 1, u, print, acc =>
      let d := u % 10
      let print' := print || d ≠ 0
      let acc' := if print' then (digitChar d).toString ++ acc else acc
      fmtFrac p (u / 10) print' acc'

/-- `fmtInt` of Go's `time.Duration.String`: plain decimal. -/
def fmtInt (u : Nat) : String := toString u

/-- Go's `time.Duration.String`: compact duration text ("5s", "1.5ms",
"1h2m3s", ...).  The duration is in nanoseconds. -/
def durationString (d : Int) : String :=
  let u := d.natAbs
  let core :=
    if u < 1000000000 then
      if u = 0 then "0s"
      else if u < 1000 then fmtInt u ++ "ns"
      else if u < 1000000 then
        let fu := fmtFrac 3 u false ""
        fmtInt fu.2 ++ fu.1 ++ "µs"
      else
        let fu := fmtFrac 6 u false ""
        fmtInt fu.2 ++ fu.1 ++ "ms"
    else
      let fu := fmtFrac 9 u false ""
      let secs := fu.2
      let s1 := fmtInt (secs % 60) ++ fu.1 ++ "s"
      let mins := secs / 60
      if mins = 0 then s1
      else
        let s2 := fmtInt (mins % 60) ++ "m" ++ s1
        let hours := mins / 60
        if hours = 0 then s2 else fmtInt hours ++ "h" ++ s2
  if d < 0 then "-" ++ core else core

/-- A reflected field value at one of the kinds `MakeURLValues` handles.
`dur` is a `time.Duration` (a distinct named type checked before the kind
switch); `unsupported` stands for any other kind (e.g. `float64`). -/
inductive FieldValue where
  | str (s : String) : FieldValue
  | bool (b : Bool) : FieldValue
  | int (i : Int) : FieldValue
  | uint (u : Nat) : FieldValue
  | dur (ns : Int) : FieldValue
  | unsupported : FieldValue

/-- One reflected struct field: its `uvalue` tag (empty = untagged),
whether it is exported, and its value. -/
structure GoField where
  tag : String
  exported : Bool
  value : FieldValue

/-- The input of `MakeURLValues`: nil, a nil pointer, a non-struct value,
or a (pointer to a) struct reflected as its field list. -/
inductive URLValuesInput where
  | nilInput : URLValuesInput
  | nilPtr : URLValuesInput
  | nonStruct : URLValuesInput
  | strct (fields : List GoField) : URLValuesInput

/-- The string form `MakeURLValues` computes for one field, or `none`
when the field is skipped (the `default: continue` branch). -/
def fieldStrVal : FieldValue → Option String
  | .str s => some s
  | .bool b => some (if b then "true" else "false")
  | .int i => some (toString i)
  | .uint u => some (toString u)
  | .dur ns => some (durationString ns)
  | .unsupported => none

/-- The field loop of `MakeURLValues`: each tagged, exported field of a
supported kind contributes `(tag, value)`; the tag string is used as the
key exactly as written — no `,omitempty` parsing, no zero-value check. -/
def makeURLValuesFields : List GoField → List (String × String)
  | [] => []
  | f :: fs =>
      if f.tag = "" then makeURLValuesFields fs
      else if ¬f.exported then makeURLValuesFields fs
      else
        match fieldStrVal f.value with
        | none => makeURLValuesFields fs
        | some v => (f.tag, v) :: makeURLValuesFields fs

/-- `MakeURLValues`: nil and nil-pointer inputs give no parameters, a
non-struct input is an error, a struct is encoded field by field. -/
def MakeURLValues : URLValuesInput → Except String (List (String × String))
  | .nilInput => .ok []
  | .nilPtr => .ok []
  | .nonStruct => .error "input must be a pointer to a struct"
  | .strct fs => .ok (makeURLValuesFields fs)

/-! ## Endpoint selector (`part_004` of the source: `RandomBalancer`)

The balancer is modelled as a state machine.  URLs are strings.  The
hand-off channel `ch` between `checkBadHosts` and `markGoodHosts` is
`Option (List String)`: `none` models the nil channel (the field is never
initialised by `NewRandomBalancer`), on which every send and receive in
Go blocks forever — so the corresponding transitions are not enabled. -/

/-- One pool entry: URL plus health flag. -/
structure RBHost where
  url : String
  healthy : Bool

/-- Balancer state: the host pool and the hand-off channel. -/
structure RBState where
  hosts : List RBHost
  ch : Option (List String)

/-- Construction loop of `NewRandomBalancer`: parse and dedupe the
addresses (URL parsing is modelled as the identity on well-formed
address strings). -/
def rbBuildHosts : List String → List String → Except String (List RBHost)
  | [], _ => .ok []
  | a :: rest, seen =>
      if a ∈ seen then .error "duplicate addresses provided"
      else
        (rbBuildHosts rest (a :: seen)).map fun hs =>
          ⟨a, true⟩ :: hs

/-- `NewRandomBalancer`: duplicate addresses are a construction error, an
empty pool is `ErrNoHostsAvailable`; all hosts start healthy, and the
`ch` and `done` fields are left at their zero value — `ch` is nil. -/
def newRandomBalancer (addresses : List String) : Except String RBState :=
  (rbBuildHosts addresses []).bind fun hosts =>
    if hosts.length = 0 then .error "no hosts available"
    else .ok ⟨hosts, none⟩

/-- The healthy sub-pool `Next` samples from (`Next` returns a uniformly
random element of this list, or `ErrNoHostsAvailable` when it is
empty). -/
def rbNextCandidates (st : RBState) : List String :=
  (st.hosts.filter (·.healthy)).map (·.url)

/-- The loop of `MarkBad`: flip the first host with the given URL to
unhealthy. -/
def rbMarkBadHosts (u : String) : List RBHost → List RBHost
  | [] => []
  | h :: hs =>
      if h.url = u then { h with healthy := false } :: hs
      else h :: rbMarkBadHosts u hs

/-- The loop of `markGoodHosts`: flip the first host with the given URL
back to healthy. -/
def rbMarkGoodHosts (u : String) : List RBHost → List RBHost
  | [] => []
  | h :: hs =>
      if h.url = u then { h with healthy := true } :: hs
      else h :: rbMarkGoodHosts u hs

/-- The events that mutate balancer state. -/
inductive RBStep where
  | markBad (u : String) : RBStep
  | probe : RBStep
  | promote : RBStep

/-- One enabled transition, or `none` when the event blocks:
`markBad u` is `MarkBad`; `probe` is one tick of `checkBadHosts`, which
sends every unhealthy URL passing the health check on `ch` (blocked
forever when `ch` is nil); `promote` is one receive of `markGoodHosts`
(blocked when `ch` is nil or empty). -/
def rbStep (chk : String → Bool) : RBStep → RBState → Option RBState
  | .markBad u, st => some ⟨rbMarkBadHosts u st.hosts, st.ch⟩
  | .probe, st =>
      match st.ch with
      | none => none
      | some q =>
          some ⟨st.hosts,
            some (q ++ (st.hosts.filter (fun h => ¬h.healthy ∧ chk h.url)).map (·.url))⟩
  | .promote, st =>
      match st.ch with
      | some (u :: q) => some ⟨rbMarkGoodHosts u st.hosts, some q⟩
      | _ => none

/-- Run a sequence of events; a blocked event leaves the state unchanged
(in Go the blocked goroutine simply never completes the operation). -/
def rbRun (chk : String → Bool) : List RBStep → RBState → RBState
  | [], st => st
  | s :: ss, st => rbRun chk ss ((rbStep chk s st).getD st)

/-- Written from the spec's words on the error-lookup accessor, for
comparison with the source walkers: the index and message of the first
per-statement error that is set, or `(false, -1, "")` when none are. -/
def specFirstStatementError : List String → Bool × Int × String
  | [] => (false, -1, "")
  | e :: es =>
      if e ≠ "" then (true, 0, e)
      else
        match specFirstStatementError es with
        | (true, k, msg) => (true, k + 1, msg)
        | r => r

/-! # Theorems -/

/-- Claim C1: the claim says `Decode(Encode(s)) = s` for a statement with
only positional parameters, but `SQLStatement.UnmarshalJSON` only accepts
a bare JSON string: the encoding of a one-positional-parameter statement
is an array, and decoding it fails with a type error instead of returning
the statement.  This contradicts the repository's own tests, which
round-trip parameterised statements through the wire format. -/
theorem C1_roundtrip_fails_on_parameters :
    SQLStatement.unmarshalJSON
        (SQLStatement.marshalJSON
          ⟨"INSERT INTO foo VALUES(?)", [.str "fiona"], []⟩) =
      .error "json: cannot unmarshal array into Go value of type string" ∧
    SQLStatement.marshalJSON
        ⟨"INSERT INTO foo VALUES(?)", [.str "fiona"], []⟩ =
      .arr [.str "INSERT INTO foo VALUES(?)", .str "fiona"] := by
  constructor <;> rfl

/-- Claim C2: for a 200 response with body `{"results":[{"error":"x"}]}`,
Execute, Query and Request return the promoted error
`statement 0: x` alongside the decoded response when promotion is
enabled, and return the response with no error — but with `HasError`
reporting `(true, 0, "x")` — when promotion is disabled (the default). -/
theorem C2_error_promotion :
    (executeHandleResponse true 200
        (.obj [("results", .arr [.obj [("error", .str "x")]])]) =
      (some ⟨[⟨0, 0, float64zero, "x"⟩], float64zero, 0⟩,
        some (.statementError 0 "x")) ∧
     queryHandleResponse true 200
        (.obj [("results", .arr [.obj [("error", .str "x")]])]) =
      (some ⟨.columnar [⟨[], [], [], float64zero, "x"⟩], float64zero⟩,
        some (.statementError 0 "x")) ∧
     requestHandleResponse true 200
        (.obj [("results", .arr [.obj [("error", .str "x")]])]) =
      (some ⟨[⟨[], [], [], none, none, "x", float64zero⟩], float64zero⟩,
        some (.statementError 0 "x"))) ∧
    (executeHandleResponse false 200
        (.obj [("results", .arr [.obj [("error", .str "x")]])]) =
      (some ⟨[⟨0, 0, float64zero, "x"⟩], float64zero, 0⟩, none) ∧
     queryHandleResponse false 200
        (.obj [("results", .arr [.obj [("error", .str "x")]])]) =
      (some ⟨.columnar [⟨[], [], [], float64zero, "x"⟩], float64zero⟩, none) ∧
     requestHandleResponse false 200
        (.obj [("results", .arr [.obj [("error", .str "x")]])]) =
      (some ⟨[⟨[], [], [], none, none, "x", float64zero⟩], float64zero⟩,
        none)) ∧
    (ExecuteResponse.hasError ⟨[⟨0, 0, float64zero, "x"⟩], float64zero, 0⟩ =
      (true, 0, "x") ∧
     QueryResponse.hasError
        ⟨.columnar [⟨[], [], [], float64zero, "x"⟩], float64zero⟩ =
      (true, 0, "x") ∧
     RequestResponse.hasError
        ⟨[⟨[], [], [], none, none, "x", float64zero⟩], float64zero⟩ =
      (true, 0, "x")) := by
  refine ⟨⟨?_, ?_, ?_⟩, ⟨?_, ?_, ?_⟩, ?_, ?_, ?_⟩ <;> rfl

/-- Claim C6: the claim says a zero-valued field marked omit-on-default
is omitted, but `MakeURLValues` never parses the `,omitempty` suffix of a
`uvalue` tag: a zero string field tagged `uvalue:"s,omitempty"` is still
encoded — under the literal key `s,omitempty` — contradicting the
repository's own `ZeroValues_OmitEmpy` test. -/
theorem C6_omitempty_not_honoured :
    MakeURLValues (.strct [⟨"s,omitempty", true, .str ""⟩]) =
      .ok [("s,omitempty", "")] ∧
    MakeURLValues (.strct [⟨"i,omitempty", true, .int 0⟩]) =
      .ok [("i,omitempty", "0")] ∧
    MakeURLValues (.strct [⟨"b,omitempty", true, .bool false⟩]) =
      .ok [("b,omitempty", "false")] := by
  refine ⟨?_, ?_, ?_⟩ <;> rfl

/-- Claim C10: when both parameter kinds are populated, `MarshalJSON`
silently takes the named-parameter branch — the output is the two-element
array of the SQL text and the (key-sorted) named-parameter map, the
positional parameters do not appear in it, and no error is produced
(the encoder is total). -/
theorem C10_both_kinds_named_wins (sql : String)
    (pp : List JSONValue) (np : List (String × JSONValue))
    (h : np ≠ []) :
    SQLStatement.marshalJSON ⟨sql, pp, np⟩ =
      .arr [.str sql, .obj (canonMap np)] := by
  unfold SQLStatement.marshalJSON
  simp [List.length_pos.mpr h]

/-- Witness for C10 at a concrete statement carrying both parameter
kinds. -/
theorem C10_both_kinds_named_wins_witness :
    SQLStatement.marshalJSON
        ⟨"INSERT INTO foo VALUES(:a)", [.num 7 0], [("a", .str "v")]⟩ =
      .arr [.str "INSERT INTO foo VALUES(:a)", .obj [("a", .str "v")]] := by
  have h := C10_both_kinds_named_wins "INSERT INTO foo VALUES(:a)"
    [.num 7 0] [("a", .str "v")] (by simp)
  simpa using h

/-- Bridge: the execute walker started at `i` is the spec's first-error
computation with `i` added to the found index. -/
theorem executeHasErrorFrom_eq_spec (rs : List ExecuteResult) (i : Int) :
    executeHasErrorFrom i rs =
      match specFirstStatementError (rs.map (·.Error)) with
      | (true, k, msg) => (true, i + k, msg)
      | r => r := by
  induction rs generalizing i with
  | nil => rfl
  | cons r rs ih =>
    by_cases h : r.Error = ""
    · rcases hs : specFirstStatementError (rs.map (·.Error)) with ⟨b, k, msg⟩
      cases b <;>
        simp [executeHasErrorFrom, specFirstStatementError, h, ih, hs] <;>
        omega
    · simp [executeHasErrorFrom, specFirstStatementError, h]

/-- Bridge for the columnar query walker. -/
theorem queryHasErrorFrom_eq_spec (rs : List QueryResult) (i : Int) :
    queryHasErrorFrom i rs =
      match specFirstStatementError (rs.map (·.Error)) with
      | (true, k, msg) => (true, i + k, msg)
      | r => r := by
  induction rs generalizing i with
  | nil => rfl
  | cons r rs ih =>
    by_cases h : r.Error = ""
    · rcases hs : specFirstStatementError (rs.map (·.Error)) with ⟨b, k, msg⟩
      cases b <;>
        simp [queryHasErrorFrom, specFirstStatementError, h, ih, hs] <;>
        omega
    · simp [queryHasErrorFrom, specFirstStatementError, h]

/-- Bridge for the associative query walker. -/
theorem queryAssocHasErrorFrom_eq_spec (rs : List QueryResultAssoc) (i : Int) :
    queryAssocHasErrorFrom i rs =
      match specFirstStatementError (rs.map (·.Error)) with
      | (true, k, msg) => (true, i + k, msg)
      | r => r := by
  induction rs generalizing i with
  | nil => rfl
  | cons r rs ih =>
    by_cases h : r.Error = ""
    · rcases hs : specFirstStatementError (rs.map (·.Error)) with ⟨b, k, msg⟩
      cases b <;>
        simp [queryAssocHasErrorFrom, specFirstStatementError, h, ih, hs] <;>
        omega
    · simp [queryAssocHasErrorFrom, specFirstStatementError, h]

/-- Bridge for the request walker. -/
theorem requestHasErrorFrom_eq_spec (rs : List RequestResult) (i : Int) :
    requestHasErrorFrom i rs =
      match specFirstStatementError (rs.map (·.Error)) with
      | (true, k, msg) => (true, i + k, msg)
      | r => r := by
  induction rs generalizing i with
  | nil => rfl
  | cons r rs ih =>
    by_cases h : r.Error = ""
    · rcases hs : specFirstStatementError (rs.map (·.Error)) with ⟨b, k, msg⟩
      cases b <;>
        simp [requestHasErrorFrom, specFirstStatementError, h, ih, hs] <;>
        omega
    · simp [requestHasErrorFrom, specFirstStatementError, h]

/-- Claim C9, counterexample: the decoded response types carry no
top-level error field, so a 2xx body with a top-level `"error"` member
decodes successfully and the accessor reports no error — the claim's
"examines the top-level error field first" does not hold on this code
revision. -/
theorem C9_toplevel_error_ignored :
    unmarshalExecuteResponse
        (.obj [("error", .str "x"), ("results", .arr [])]) =
      some executeResponseZero ∧
    ExecuteResponse.hasError executeResponseZero = (false, -1, "") := by
  exact ⟨rfl, rfl⟩

/-- Claim C9, amended: each `HasError` accessor examines only the
per-statement error fields, in order, returning the index and message of
the first one that is set, or `(false, -1, "")` when none are set; the
top-level wire error field is not represented and hence not examined. -/
theorem C9_hasError_first_statement_error (er : ExecuteResponse)
    (qr : QueryResponse) (rr : RequestResponse) :
    er.hasError = specFirstStatementError (er.Results.map (·.Error)) ∧
    qr.hasError =
      (match qr.Results with
       | .columnar rs => specFirstStatementError (rs.map (·.Error))
       | .assoc rs => specFirstStatementError (rs.map (·.Error))) ∧
    rr.hasError = specFirstStatementError (rr.Results.map (·.Error)) := by
  refine ⟨?_, ?_, ?_⟩
  · rw [ExecuteResponse.hasError, executeHasErrorFrom_eq_spec]
    rcases hs : specFirstStatementError (er.Results.map (·.Error)) with ⟨b, k, m⟩
    cases b <;> simp [hs]
  · rw [QueryResponse.hasError]
    rcases qr.Results with rs | rs
    · dsimp only
      rw [queryHasErrorFrom_eq_spec]
      rcases hs : specFirstStatementError (rs.map (·.Error)) with ⟨b, k, m⟩
      cases b <;> simp [hs]
    · dsimp only
      rw [queryAssocHasErrorFrom_eq_spec]
      rcases hs : specFirstStatementError (rs.map (·.Error)) with ⟨b, k, m⟩
      cases b <;> simp [hs]
  · rw [RequestResponse.hasError, requestHasErrorFrom_eq_spec]
    rcases hs : specFirstStatementError (rr.Results.map (·.Error)) with ⟨b, k, m⟩
    cases b <;> simp [hs]

/-- Claim C4: the decoder attempts the columnar shape first and the
associative shape second.  The two example envelopes decode to the
columnar and associative forms respectively; whenever the columnar
attempt succeeds its result is used; and whenever both attempts fail on
the captured raw `results`, decoding fails with the shape-mismatch
error. -/
theorem C4_shape_sniffing :
    (unmarshalQueryResponse
        (.obj [("results", .arr [.obj [("columns", .arr [.str "id"]),
                                       ("values", .arr [.arr [.num 1 0]])]]),
               ("time", .num 1 (-1))]) =
      .ok ⟨.columnar [⟨["id"], [], [[.float ⟨4503599627370496, -52⟩]],
                      float64zero, ""⟩],
           ⟨7205759403792794, -56⟩⟩) ∧
    (unmarshalQueryResponse
        (.obj [("results", .arr [.obj [("types", .obj [("id", .str "integer")]),
                                       ("rows", .arr [.obj [("id", .num 1 0)]])]]),
               ("time", .num 1 (-1))]) =
      .ok ⟨.assoc [⟨[("id", "integer")],
                   [[("id", .float ⟨4503599627370496, -52⟩)]],
                   float64zero, ""⟩],
           ⟨7205759403792794, -56⟩⟩) ∧
    (∀ (env : JSONValue) (aux : QueryRespAux) (raw : JSONValue)
        (rs : List QueryResult),
       decodeQueryRespAux env = some aux →
       aux.resultsRaw = some raw →
       decodeQueryResultList raw = some rs →
       unmarshalQueryResponse env = .ok ⟨.columnar rs, aux.time⟩) ∧
    (∀ (env : JSONValue) (aux : QueryRespAux) (raw : JSONValue),
       decodeQueryRespAux env = some aux →
       aux.resultsRaw = some raw →
       decodeQueryResultList raw = none →
       decodeQueryResultAssocList raw = none →
       unmarshalQueryResponse env = .error queryShapeErrMsg) := by
  refine ⟨rfl, rfl, ?_, ?_⟩
  · intro env aux raw rs h1 h2 h3
    simp [unmarshalQueryResponse, h1, h2, h3]
  · intro env aux raw h1 h2 h3 h4
    simp [unmarshalQueryResponse, h1, h2, h3, h4]

/-- Witness for C4 exercising both quantified parts at concrete inputs:
a `results` of shape `5` (a bare number) matches neither form and is a
shape-mismatch decode error, while a decodable columnar `results` is
taken by the first attempt. -/
theorem C4_shape_sniffing_witness :
    unmarshalQueryResponse (.obj [("results", .num 5 0)]) =
      .error queryShapeErrMsg ∧
    unmarshalQueryResponse (.obj [("results", .arr [])]) =
      .ok ⟨.columnar [], float64zero⟩ := by
  constructor
  · exact C4_shape_sniffing.2.2.2 (.obj [("results", .num 5 0)])
      ⟨some (.num 5 0), float64zero⟩ (.num 5 0) rfl rfl rfl rfl
  · exact C4_shape_sniffing.2.2.1 (.obj [("results", .arr [])])
      ⟨some (.arr []), float64zero⟩ (.arr []) [] rfl rfl rfl

/-- Claim C5, counterexample: a response with the 2xx status 201 and a
perfectly decodable body is not decoded — `Client.Execute` compares the
status against 200 exactly and returns the unexpected-status error, so
"every response with a 2xx status is decoded rather than treated as an
error" fails at status 201. -/
theorem C5_status201_treated_as_error :
    executeHandleResponse false 201 (.obj [("results", .arr [])]) =
      (none, some (.unexpectedStatus 201 (.obj [("results", .arr [])]))) ∧
    (200 ≤ 201 ∧ 201 < 300) ∧
    unmarshalExecuteResponse (.obj [("results", .arr [])]) =
      some executeResponseZero := by
  exact ⟨rfl, by norm_num, rfl⟩

/-- Claim C5, amended: Execute/Query/Request treat any status other than
exactly 200 as a hard error carrying the status code and the raw body,
and Backup as a hard error carrying the status code; a 200 response is
decoded (or, for Backup, handed to the caller).  The untyped
status/diagnostics/node-list/readiness calls return the body with no
status check at all, for every status. -/
theorem C5_status_handling (promote : Bool) (status : Nat)
    (body : JSONValue) (raw : List Char) :
    (status ≠ 200 →
      executeHandleResponse promote status body =
        (none, some (.unexpectedStatus status body)) ∧
      queryHandleResponse promote status body =
        (none, some (.unexpectedStatus status body)) ∧
      requestHandleResponse promote status body =
        (none, some (.unexpectedStatus status body)) ∧
      backupHandleResponse status raw =
        .error (.unexpectedStatusCode status)) ∧
    (∀ resp, unmarshalExecuteResponse body = some resp →
      executeHandleResponse false 200 body = (some resp, none)) ∧
    backupHandleResponse 200 raw = .ok raw ∧
    statusHandleResponse status raw = .ok raw ∧
    readyHandleResponse status raw = .ok raw := by
  refine ⟨?_, ?_, rfl, rfl, rfl⟩
  · intro h
    refine ⟨?_, ?_, ?_, ?_⟩ <;>
      simp [executeHandleResponse, queryHandleResponse,
        requestHandleResponse, backupHandleResponse, h]
  · intro resp hresp
    simp [executeHandleResponse, hresp]

/-- Witness for C5 at status 500 (error path) and at status 200 with a
decodable body (decode path). -/
theorem C5_status_handling_witness :
    executeHandleResponse false 500 .null =
      (none, some (.unexpectedStatus 500 .null)) ∧
    executeHandleResponse false 200 (.obj [("results", .arr [])]) =
      (some executeResponseZero, none) := by
  constructor
  · exact ((C5_status_handling false 500 .null []).1 (by norm_num)).1
  · exact (C5_status_handling false 200 (.obj [("results", .arr [])]) []).2.1
      executeResponseZero rfl

/-- Claim C7: the claim says a stream starting with the store's binary
signature is sent as octet-stream, but `validSQLiteData` demands strictly
more than 13 bytes while `Load` hands it exactly the 13 bytes it read, so
the octet-stream branch is unreachable: every non-empty stream —
including one starting with `"SQLite format"` — is sent as text/plain.
The bytes themselves are transmitted exactly once for streams of at
least 13 bytes. -/
theorem C7_load_sniffing_broken :
    (loadSend ("SQLite format 3".toList ++ [Char.ofNat 0]) =
      some ("text/plain", "SQLite format 3".toList ++ [Char.ofNat 0])) ∧
    (∀ (s : List Char) (ct : String) (sent : List Char),
       loadSend s = some (ct, sent) → ct = "text/plain") ∧
    (∀ s : List Char, 13 ≤ s.length → loadSend s = some ("text/plain", s)) := by
  refine ⟨rfl, ?_, ?_⟩
  · intro s ct sent h
    rw [loadSend] at h
    by_cases hs : s.isEmpty
    · simp [hs] at h
    · simp only [hs, if_false] at h
      have hlen : (s.take 13 ++
          List.replicate (13 - s.length) (Char.ofNat 0)).length = 13 := by
        simp [List.length_take, List.length_replicate]
        omega
      have hv : validSQLiteData (s.take 13 ++
          List.replicate (13 - s.length) (Char.ofNat 0)) = false := by
        rw [validSQLiteData, hlen]
        simp
      rw [hv] at h
      simp at h
      exact h.1.symm
  · intro s hlen
    have hne : s.isEmpty = false := by
      cases s with
      | nil => simp at hlen
      | cons a t => rfl
    have h13 : 13 - s.length = 0 := by omega
    rw [loadSend]
    simp only [hne, Bool.false_eq_true, if_false, h13, List.replicate_zero,
      List.append_nil]
    have hv : validSQLiteData (s.take 13) = false := by
      rw [validSQLiteData]
      have : (s.take 13).length = 13 := by
        simp [List.length_take]
        omega
      rw [this]
      simp
    rw [hv]
    simp

/-- Witness for C7 exercising the quantified parts on a concrete
17-byte stream carrying the SQLite signature. -/
theorem C7_load_sniffing_broken_witness :
    loadSend ("SQLite format 3\x00\x01".toList) =
      some ("text/plain", "SQLite format 3\x00\x01".toList) := by
  exact C7_load_sniffing_broken.2.2 "SQLite format 3\x00\x01".toList
    (by decide)


/-- Every host named `u` in the pool is unhealthy. -/
def allBadFor (u : String) (hosts : List RBHost) : Prop :=
  ∀ h ∈ hosts, h.url = u → h.healthy = false

/-- A successful `rbBuildHosts` returns the addresses in order, certifies
the list duplicate-free, and excludes everything already seen. -/
theorem rbBuildHosts_ok (l : List String) :
    ∀ (seen : List String) (hs : List RBHost),
      rbBuildHosts l seen = .ok hs →
      hs.map (·.url) = l ∧ l.Nodup ∧ ∀ x ∈ seen, x ∉ l := by
  induction l with
  | nil =>
    intro seen hs h
    rw [rbBuildHosts] at h
    cases h
    exact ⟨rfl, List.nodup_nil, by simp⟩
  | cons a rest ih =>
    intro seen hs h
    rw [rbBuildHosts] at h
    by_cases hc : a ∈ seen
    · simp [hc] at h
    · rw [if_neg hc] at h
      cases hrec : rbBuildHosts rest (a :: seen) with
      | error e => rw [hrec] at h; cases h
      | ok hs' =>
        rw [hrec] at h
        cases h
        obtain ⟨hmap, hnodup, hseen⟩ := ih (a :: seen) hs' hrec
        have ha : a ∉ rest := hseen a (List.mem_cons_self a seen)
        have haseen : a ∉ seen := hc
        refine ⟨by simp [hmap], List.nodup_cons.mpr ⟨ha, hnodup⟩, ?_⟩
        intro x hx
        rw [List.mem_cons]
        push_neg
        constructor
        · intro hxa
          exact haseen (hxa ▸ hx)
        · exact hseen x (List.mem_cons_of_mem a hx)

/-- With duplicate-free URLs, `MarkBad u` leaves every host named `u`
unhealthy (there is exactly one, and it is flipped). -/
theorem rbMarkBadHosts_allBad (u : String) (hosts : List RBHost)
    (hnodup : (hosts.map (·.url)).Nodup) :
    allBadFor u (rbMarkBadHosts u hosts) := by
  induction hosts with
  | nil => intro h hmem; simp [rbMarkBadHosts] at hmem
  | cons h0 hs ih =>
    simp only [List.map_cons, List.nodup_cons] at hnodup
    intro h hmem hurl
    rw [rbMarkBadHosts] at hmem
    by_cases he : h0.url = u
    · rw [if_pos he] at hmem
      rcases List.mem_cons.mp hmem with hhead | htail
      · subst hhead; rfl
      · exfalso
        apply hnodup.1
        rw [List.mem_map]
        exact ⟨h, htail, by rw [hurl, he]⟩
    · rw [if_neg he] at hmem
      rcases List.mem_cons.mp hmem with hhead | htail
      · subst hhead; exact absurd hurl he
      · exact ih hnodup.2 h htail hurl

/-- `MarkBad` of any URL never resurrects a host: `allBadFor` is
preserved. -/
theorem rbMarkBadHosts_preserves (u w : String) (hosts : List RBHost) :
    allBadFor u hosts → allBadFor u (rbMarkBadHosts w hosts) := by
  induction hosts with
  | nil => intro _ h hmem; simp [rbMarkBadHosts] at hmem
  | cons h0 hs ih =>
    intro hbad h hmem hurl
    rw [rbMarkBadHosts] at hmem
    by_cases he : h0.url = w
    · rw [if_pos he] at hmem
      rcases List.mem_cons.mp hmem with hhead | htail
      · subst hhead; rfl
      · exact hbad h (List.mem_cons_of_mem h0 htail) hurl
    · rw [if_neg he] at hmem
      rcases List.mem_cons.mp hmem with hhead | htail
      · subst hhead
        exact hbad _ (List.mem_cons_self _ _) hurl
      · exact ih (fun h' hm hu => hbad h' (List.mem_cons_of_mem h0 hm) hu)
          h htail hurl

/-- With a nil hand-off channel, every event either is a `MarkBad` (which
keeps the channel nil and cannot resurrect a host) or blocks: the nil
channel and `allBadFor` are invariants of any run. -/
theorem rbRun_nil_channel_invariant (chk : String → Bool) (u : String)
    (l : List RBStep) :
    ∀ st : RBState, st.ch = none → allBadFor u st.hosts →
      (rbRun chk l st).ch = none ∧ allBadFor u (rbRun chk l st).hosts := by
  induction l with
  | nil => intro st hch hbad; exact ⟨hch, hbad⟩
  | cons s ss ih =>
    intro st hch hbad
    rw [rbRun]
    cases s with
    | markBad w =>
      exact ih ⟨rbMarkBadHosts w st.hosts, st.ch⟩ hch
        (rbMarkBadHosts_preserves u w st.hosts hbad)
    | probe =>
      have : rbStep chk .probe st = none := by
        rw [rbStep, hch]
      rw [this]
      exact ih st hch hbad
    | promote =>
      have : rbStep chk .promote st = none := by
        rw [rbStep, hch]
      rw [this]
      exact ih st hch hbad

/-- A URL all of whose hosts are unhealthy is not in `Next`'s candidate
pool. -/
theorem allBadFor_not_candidate (u : String) (st : RBState)
    (hbad : allBadFor u st.hosts) : u ∉ rbNextCandidates st := by
  intro hmem
  rw [rbNextCandidates, List.mem_map] at hmem
  obtain ⟨h, hmem', hurl⟩ := hmem
  rw [List.mem_filter] at hmem'
  have := hbad h hmem'.1 hurl
  rw [this] at hmem'
  exact Bool.noConfusion hmem'.2

/-- Claim C8: the claim says a marked-bad endpoint becomes eligible again
once the health predicate passes on a probe cycle, but `NewRandomBalancer`
never initialises the hand-off channel: the probe's send and the
promoter's receive both block forever on the nil channel, so after
`MarkBad(e)` no sequence of probe/promote/mark events — whatever the
health predicate returns — ever returns `e` to `Next`'s candidate pool. -/
theorem C8_markbad_never_eligible_again (addrs : List String)
    (chk : String → Bool) (e : String) (l : List RBStep) (st0 : RBState)
    (hini : newRandomBalancer addrs = .ok st0) (hmem : e ∈ addrs) :
    e ∉ rbNextCandidates
        (rbRun chk l ((rbStep chk (.markBad e) st0).getD st0)) := by
  have hbuild : ∃ hosts, rbBuildHosts addrs [] = .ok hosts ∧
      st0 = ⟨hosts, none⟩ := by
    rw [newRandomBalancer] at hini
    cases hb : rbBuildHosts addrs [] with
    | error msg => rw [hb] at hini; cases hini
    | ok hosts =>
      rw [hb] at hini
      simp only [Except.bind] at hini
      by_cases hlen : hosts.length = 0
      · rw [if_pos hlen] at hini; cases hini
      · rw [if_neg hlen] at hini
        cases hini
        exact ⟨hosts, rfl, rfl⟩
  obtain ⟨hosts, hb, hst0⟩ := hbuild
  obtain ⟨hmap, hnodup, -⟩ := rbBuildHosts_ok addrs [] hosts hb
  have hnodupUrls : (hosts.map (·.url)).Nodup := by rw [hmap]; exact hnodup
  subst hst0
  have hstep : rbStep chk (.markBad e) ⟨hosts, none⟩ =
      some ⟨rbMarkBadHosts e hosts, none⟩ := rfl
  rw [hstep]
  have hinv := rbRun_nil_channel_invariant chk e l
    ⟨rbMarkBadHosts e hosts, none⟩ rfl
    (rbMarkBadHosts_allBad e hosts hnodupUrls)
  exact allBadFor_not_candidate e _ (hinv.2)

/-- Witness for C8: one pooled address, an always-passing health check,
and a probe/promote/probe run after `MarkBad` — the endpoint stays out of
the candidate pool. -/
theorem C8_markbad_never_eligible_again_witness :
    "http://a" ∉ rbNextCandidates
        (rbRun (fun _ => true) [.probe, .promote, .probe]
          ((rbStep (fun _ => true) (.markBad "http://a")
              ⟨[⟨"http://a", true⟩], none⟩).getD
            ⟨[⟨"http://a", true⟩], none⟩)) := by
  exact C8_markbad_never_eligible_again ["http://a"] (fun _ => true)
    "http://a" [.probe, .promote, .probe] ⟨[⟨"http://a", true⟩], none⟩
    rfl (by simp)

/-- `fracLt` decides the rational comparison, for positive
denominators. -/
theorem fracLt_iff (a b : Frac) (ha : 0 < a.fden) (hb : 0 < b.fden) :
    fracLt a b = true ↔ a.toRat < b.toRat := by
  rw [fracLt, decide_eq_true_iff, Frac.toRat, Frac.toRat,
    div_lt_div_iff (by exact_mod_cast ha) (by exact_mod_cast hb)]
  constructor
  · intro h; exact_mod_cast h
  · intro h; exact_mod_cast h

/-- `pow2Frac` denotes `2 ^ e`. -/
theorem pow2Frac_toRat (e : Int) : (pow2Frac e).toRat = (2 : ℚ) ^ e := by
  cases e with
  | ofNat n =>
    rw [pow2Frac, Frac.toRat]
    push_cast
    rw [div_one]
    rw [Int.ofNat_eq_coe, zpow_natCast]
  | negSucc n =>
    rw [pow2Frac, Frac.toRat, zpow_negSucc]
    push_cast
    rw [one_div]

/-- `pow2Frac` has positive denominator. -/
theorem pow2Frac_fden_pos (e : Int) : 0 < (pow2Frac e).fden := by
  cases e with
  | ofNat n => rw [pow2Frac]; norm_num
  | negSucc n =>
    rw [pow2Frac]
    have : (0 : Int) < ((2 ^ (n + 1) : Nat) : Int) := by positivity
    exact this

/-- The upward exponent search is correct when given enough fuel. -/
theorem findExpUp_spec (fuel : Nat) :
    ∀ (e : Int) (q : Frac), 0 < q.fden →
      (2 : ℚ) ^ e ≤ q.toRat →
      q.toRat < (2 : ℚ) ^ (e + fuel + 1) →
      (2 : ℚ) ^ (findExpUp fuel e q) ≤ q.toRat ∧
      q.toRat < (2 : ℚ) ^ (findExpUp fuel e q + 1) := by
  induction fuel with
  | zero =>
    intro e q hden hlow hup
    rw [findExpUp]
    refine ⟨hlow, ?_⟩
    simpa using hup
  | succ fuel ih =>
    intro e q hden hlow hup
    rw [findExpUp]
    by_cases hc : fracLt q (pow2Frac (e + 1)) = true
    · rw [if_pos hc]
      refine ⟨hlow, ?_⟩
      have := (fracLt_iff q (pow2Frac (e + 1)) hden
        (pow2Frac_fden_pos (e + 1))).mp hc
      rwa [pow2Frac_toRat] at this
    · rw [if_neg hc]
      have hge : (2 : ℚ) ^ (e + 1) ≤ q.toRat := by
        have := (fracLt_iff q (pow2Frac (e + 1)) hden
          (pow2Frac_fden_pos (e + 1)))
        rw [pow2Frac_toRat] at this
        have hnot := (not_iff_not.mpr this).mp (by simpa using hc)
        exact le_of_not_lt hnot
      have hup' : q.toRat < (2 : ℚ) ^ ((e + 1) + fuel + 1) := by
        have hexp : (e + 1) + (fuel : Int) + 1 = e + ((fuel : Int) + 1) + 1 := by
          ring
        rw [hexp]
        simpa using hup
      exact ih (e + 1) q hden hge hup'

/-- `binExpF` brackets a positive integer between consecutive powers of
two. -/
theorem binExpF_int_spec (n : Nat) (h1 : 1 ≤ n) :
    (2 : ℚ) ^ (binExpF ⟨(n : Int), 1⟩) ≤ (n : ℚ) ∧
    (n : ℚ) < (2 : ℚ) ^ (binExpF ⟨(n : Int), 1⟩ + 1) := by
  have hlt : fracLt ⟨(n : Int), 1⟩ ⟨1, 1⟩ = false := by
    rw [fracLt, decide_eq_false_iff_not]
    push_neg
    simp
    exact_mod_cast h1
  have hbin : binExpF ⟨(n : Int), 1⟩ =
      findExpUp ((n : Int)).natAbs 0 ⟨(n : Int), 1⟩ := by
    rw [binExpF, hlt]
    simp
  have hnat : ((n : Int)).natAbs = n := Int.natAbs_ofNat n
  have htoRat : (Frac.toRat ⟨(n : Int), 1⟩) = (n : ℚ) := by
    rw [Frac.toRat]
    norm_num
  have hspec := findExpUp_spec n 0 ⟨(n : Int), 1⟩ (by norm_num)
    (by rw [htoRat]; exact_mod_cast h1)
    (by
      rw [htoRat]
      have h' : (n : ℚ) < 2 ^ n := by exact_mod_cast Nat.lt_two_pow n
      have h2 : (n : ℚ) < 2 ^ (n + 1) :=
        lt_of_lt_of_le h' (pow_le_pow_right (by norm_num) (by omega))
      have hz : (2 : ℚ) ^ ((0 : Int) + n + 1) = 2 ^ (n + 1) := by
        rw [zero_add,
          show ((n : Int) + 1) = ((n + 1 : ℕ) : Int) by push_cast; ring,
          zpow_natCast]
      rw [hz]
      exact h2)
  rw [hbin, hnat]
  rw [htoRat] at hspec
  exact hspec

/-- Rounding an exact integer is the identity. -/
theorem roundHalfEvenF_int (x : Int) : roundHalfEvenF ⟨x, 1⟩ = x := by
  rw [roundHalfEvenF]
  simp [Int.fdiv_one]

/-- For a nonnegative exponent, `pow2Frac` is an integer over 1. -/
theorem pow2Frac_nonneg (e : Int) (he : 0 ≤ e) :
    pow2Frac e = ⟨((2 ^ e.toNat : Nat) : Int), 1⟩ := by
  cases e with
  | ofNat n => rfl
  | negSucc n => exact absurd he (by simp)

/-- `toFloat64Pos` is exact on positive integers up to `2 ^ 53`. -/
theorem toFloat64Pos_int (n : Nat) (h1 : 1 ≤ n) (h2 : n ≤ 2 ^ 53) :
    (toFloat64Pos ⟨(n : Int), 1⟩).toRat = (n : ℚ) := by
  obtain ⟨hlow, hup⟩ := binExpF_int_spec n h1
  set E := binExpF ⟨(n : Int), 1⟩ with hE
  have hE0 : 0 ≤ E := by
    by_contra hneg
    push_neg at hneg
    have hle : E + 1 ≤ 0 := by omega
    have : (2 : ℚ) ^ (E + 1) ≤ (2 : ℚ) ^ (0 : Int) :=
      zpow_le_zpow_right₀ (by norm_num) hle
    rw [zpow_zero] at this
    have h1q : (1 : ℚ) ≤ (n : ℚ) := by exact_mod_cast h1
    linarith
  have hE53 : E ≤ 53 := by
    by_contra hgt
    push_neg at hgt
    have h54 : (54 : Int) ≤ E := by omega
    have : (2 : ℚ) ^ (54 : Int) ≤ (2 : ℚ) ^ E :=
      zpow_le_zpow_right₀ (by norm_num) h54
    have hn53 : (n : ℚ) ≤ (2 : ℚ) ^ (53 : Int) := by
      have hc : (n : ℚ) ≤ ((2 ^ 53 : ℕ) : ℚ) := by exact_mod_cast h2
      calc (n : ℚ) ≤ ((2 ^ 53 : ℕ) : ℚ) := hc
        _ = (2 : ℚ) ^ (53 : Int) := by norm_num
    have hstep : (2 : ℚ) ^ (53 : Int) < (2 : ℚ) ^ (54 : Int) := by norm_num
    linarith
  rw [toFloat64Pos]
  by_cases hcase : E ≤ 52
  · have hk : 0 ≤ 52 - E := by omega
    rw [← hE, pow2Frac_nonneg (52 - E) hk]
    have hmul : Frac.mul ⟨(n : Int), 1⟩
        ⟨((2 ^ (52 - E).toNat : Nat) : Int), 1⟩ =
        ⟨(n : Int) * ((2 ^ (52 - E).toNat : Nat) : Int), 1⟩ := rfl
    rw [hmul, roundHalfEvenF_int, Float64.toRat]
    push_cast
    rw [← zpow_natCast (2 : ℚ) (52 - E).toNat,
      Int.toNat_of_nonneg hk, mul_assoc, ← zpow_add₀ (by norm_num : (2:ℚ) ≠ 0)]
    simp
  · have hE53' : E = 53 := by omega
    have hn : n = 2 ^ 53 := by
      have hge : ((2 ^ 53 : ℕ) : ℚ) ≤ (n : ℚ) := by
        have : (2 : ℚ) ^ (53 : Int) ≤ (n : ℚ) := hE53' ▸ hlow
        calc ((2 ^ 53 : ℕ) : ℚ) = (2 : ℚ) ^ (53 : Int) := by norm_num
          _ ≤ (n : ℚ) := this
      have : (2 : ℕ) ^ 53 ≤ n := by exact_mod_cast hge
      omega
    subst hn
    rw [← hE, hE53']
    have hcomp : Frac.mul ⟨((2 ^ 53 : ℕ) : Int), 1⟩ (pow2Frac (52 - 53)) =
        ⟨(2 ^ 53 : Int), 2⟩ := by
      rfl
    rw [hcomp]
    have hround : roundHalfEvenF ⟨(2 ^ 53 : Int), 2⟩ = 2 ^ 52 := by decide
    rw [hround, Float64.toRat]
    norm_num

/-- `toFloat64` is exact on integers of magnitude up to `2 ^ 53`. -/
theorem toFloat64_int (m : Int) (h : m.natAbs ≤ 2 ^ 53) :
    (toFloat64 ⟨m, 1⟩).toRat = (m : ℚ) := by
  rcases lt_trichotomy m 0 with hneg | hzero | hpos
  · have hm0 : ¬(m = 0) := by omega
    have hmp : ¬(0 < m) := by omega
    rw [toFloat64]
    simp only [hm0, if_false, hmp]
    have hnat : -m = ((m.natAbs : ℕ) : Int) := by omega
    have h1 : 1 ≤ m.natAbs := by omega
    have hpos' := toFloat64Pos_int m.natAbs h1 h
    rw [Float64.toRat]
    push_cast
    rw [neg_mul]
    have harg : (⟨-m, 1⟩ : Frac) = ⟨((m.natAbs : ℕ) : Int), 1⟩ := by
      rw [hnat]
    rw [harg]
    rw [Float64.toRat] at hpos'
    rw [hpos']
    have hcast : ((m.natAbs : ℕ) : ℚ) = -(m : ℚ) := by
      rw [Int.cast_natAbs]
      push_cast
      exact abs_of_neg (show (m : ℚ) < 0 by exact_mod_cast hneg)
    rw [hcast, neg_neg]
  · subst hzero
    rw [toFloat64]
    simp [Float64.toRat]
  · have hm0 : ¬(m = 0) := by omega
    rw [toFloat64]
    simp only [hm0, if_false, hpos, if_true]
    have hnat : m = ((m.toNat : ℕ) : Int) := by omega
    have h1 : 1 ≤ m.toNat := by omega
    have h2 : m.toNat ≤ 2 ^ 53 := by omega
    have harg : (⟨m, 1⟩ : Frac) = ⟨((m.toNat : ℕ) : Int), 1⟩ := by
      rw [← hnat]
    rw [harg, toFloat64Pos_int m.toNat h1 h2]
    exact_mod_cast congrArg (fun z : Int => (z : ℚ)) hnat.symm

/-- A JSON integer literal's fraction is the integer itself. -/
theorem jsonNumFrac_int (m : Int) : jsonNumFrac m 0 = ⟨m, 1⟩ := by
  have h0 : pow10Frac 0 = ⟨1, 1⟩ := rfl
  rw [jsonNumFrac, h0, Frac.mul]
  norm_num

/-- Claim C3, counterexample: the decoder passes numeric cell values
through binary `float64`.  The 64-bit integer `9007199254740993`
(`2 ^ 53 + 1`) inside `results` decodes to the float64
`4503599627370496 × 2 ^ 1 = 9007199254740992`: precision is not retained
up to 64 bits, and the literal decimal text is not preserved either —
the cell is a float, not a string. -/
theorem C3_int64_precision_lost :
    unmarshalQueryResponse
        (.obj [("results", .arr [.obj [("columns", .arr [.str "n"]),
            ("values", .arr [.arr [.num 9007199254740993 0]])]]),
               ("time", .num 0 0)]) =
      .ok ⟨.columnar [⟨["n"], [], [[.float ⟨4503599627370496, 1⟩]],
                      float64zero, ""⟩], float64zero⟩ ∧
    Float64.toRat ⟨4503599627370496, 1⟩ ≠ (9007199254740993 : ℚ) ∧
    (9007199254740993 : Int).natAbs < 2 ^ 63 := by
  refine ⟨rfl, ?_, by norm_num⟩
  rw [Float64.toRat]
  norm_num

/-- Claim C3, amended: numeric cell values are decoded through binary
`float64`, which is exact only for integers of magnitude at most
`2 ^ 53`; beyond that the value may be rounded, and the literal decimal
text is never preserved. -/
theorem C3_integer_precision_to_2pow53 (m : Int)
    (h : m.natAbs ≤ 2 ^ 53) :
    decodeAny (.num m 0) = .float (jsonNumFloat m 0) ∧
    (jsonNumFloat m 0).toRat = (m : ℚ) := by
  refine ⟨rfl, ?_⟩
  rw [jsonNumFloat, jsonNumFrac_int]
  exact toFloat64_int m h

/-- Witness for C3's amended claim at the boundary value `2 ^ 53`. -/
theorem C3_integer_precision_to_2pow53_witness :
    decodeAny (.num 9007199254740992 0) =
      .float (jsonNumFloat 9007199254740992 0) ∧
    (jsonNumFloat 9007199254740992 0).toRat = (9007199254740992 : ℚ) := by
  exact C3_integer_precision_to_2pow53 9007199254740992 (by norm_num)
